import Mathlib

set_option maxHeartbeats 1000000

/-- IEEE-754-style floating value with an exact rational finite part. The
source relies on NumPy/pandas float semantics throughout (NaN propagation,
signed infinities from division by zero); no property proved here depends on
rounding, so finite values are modeled as rationals. The sign of zero is not
modeled: every divisor the pipeline produces is nonnegative where the
distinction could matter. -/
inductive FVal where
  | nan : FVal
  | pinf : FVal
  | ninf : FVal
  | fin : ℚ → FVal
  deriving DecidableEq, Repr

/-- NaN test. -/
def FVal.isNan : FVal → Bool
  | FVal.nan => true
  | _ => false

/-- IEEE negation. -/
def FVal.neg : FVal → FVal
  | FVal.nan => FVal.nan
  | FVal.pinf => FVal.ninf
  | FVal.ninf => FVal.pinf
  | FVal.fin q => FVal.fin (-q)

/-- IEEE addition: NaN propagates, opposite infinities give NaN. -/
def FVal.add : FVal → FVal → FVal
  | FVal.nan, _ => FVal.nan
  | _, FVal.nan => FVal.nan
  | FVal.pinf, FVal.ninf => FVal.nan
  | FVal.ninf, FVal.pinf => FVal.nan
  | FVal.pinf, _ => FVal.pinf
  | FVal.ninf, _ => FVal.ninf
  | FVal.fin _, FVal.pinf => FVal.pinf
  | FVal.fin _, FVal.ninf => FVal.ninf
  | FVal.fin a, FVal.fin b => FVal.fin (a + b)

/-- IEEE subtraction. -/
def FVal.sub (x y : FVal) : FVal := x.add y.neg

/-- IEEE multiplication: NaN propagates, infinity times zero is NaN. -/
def FVal.mul : FVal → FVal → FVal
  | FVal.nan, _ => FVal.nan
  | _, FVal.nan => FVal.nan
  | FVal.pinf, FVal.pinf => FVal.pinf
  | FVal.pinf, FVal.ninf => FVal.ninf
  | FVal.ninf, FVal.pinf => FVal.ninf
  | FVal.ninf, FVal.ninf => FVal.pinf
  | FVal.pinf, FVal.fin b => if 0 < b then FVal.pinf else if b < 0 then FVal.ninf else FVal.nan
  | FVal.ninf, FVal.fin b => if 0 < b then FVal.ninf else if b < 0 then FVal.pinf else FVal.nan
  | FVal.fin a, FVal.pinf => if 0 < a then FVal.pinf else if a < 0 then FVal.ninf else FVal.nan
  | FVal.fin a, FVal.ninf => if 0 < a then FVal.ninf else if a < 0 then FVal.pinf else FVal.nan
  | FVal.fin a, FVal.fin b => FVal.fin (a * b)

/-- IEEE division: NaN propagates, inf/inf and 0/0 are NaN, nonzero/0 is a
signed infinity (the divisor's zero is treated as +0, which is the only zero
the pipeline produces as a divisor). -/
def FVal.div : FVal → FVal → FVal
  | FVal.nan, _ => FVal.nan
  | _, FVal.nan => FVal.nan
  | FVal.pinf, FVal.pinf => FVal.nan
  | FVal.pinf, FVal.ninf => FVal.nan
  | FVal.ninf, FVal.pinf => FVal.nan
  | FVal.ninf, FVal.ninf => FVal.nan
  | FVal.pinf, FVal.fin b => if 0 ≤ b then FVal.pinf else FVal.ninf
  | FVal.ninf, FVal.fin b => if 0 ≤ b then FVal.ninf else FVal.pinf
  | FVal.fin _, FVal.pinf => FVal.fin 0
  | FVal.fin _, FVal.ninf => FVal.fin 0
  | FVal.fin a, FVal.fin b =>
      if b ≠ 0 then FVal.fin (a / b)
      else if 0 < a then FVal.pinf
      else if a < 0 then FVal.ninf
      else FVal.nan

/-- IEEE absolute value. -/
def FVal.abs : FVal → FVal
  | FVal.nan => FVal.nan
  | FVal.pinf => FVal.pinf
  | FVal.ninf => FVal.pinf
  | FVal.fin q => FVal.fin |q|

/-- IEEE strict less-than as a Boolean: any comparison involving NaN is false
(this is how pandas elementwise comparison masks behave). -/
def FVal.ltB : FVal → FVal → Bool
  | FVal.nan, _ => false
  | _, FVal.nan => false
  | FVal.pinf, _ => false
  | _, FVal.ninf => false
  | FVal.ninf, _ => true
  | FVal.fin _, FVal.pinf => true
  | FVal.fin a, FVal.fin b => decide (a < b)

/-- IEEE less-or-equal as a Boolean: false on NaN. -/
def FVal.leB : FVal → FVal → Bool
  | FVal.nan, _ => false
  | _, FVal.nan => false
  | FVal.ninf, _ => true
  | _, FVal.pinf => true
  | FVal.pinf, _ => false
  | FVal.fin _, FVal.ninf => false
  | FVal.fin a, FVal.fin b => decide (a ≤ b)

/-- The values of a list that are not NaN (pandas skipna filtering). -/
def nonNanVals (vs : List FVal) : List FVal := vs.filter (fun v => !v.isNan)

/-- pandas sum with skipna=True and min_count=0: NaN entries are skipped and
an all-NaN (or empty) collection sums to 0. -/
def sumSkipNan (vs : List FVal) : FVal :=
  (nonNanVals vs).foldl FVal.add (FVal.fin 0)

/-- Plain IEEE sum (every operand participates, NaN propagates); used on the
specification side when stating what "the sum over instruments" means. -/
def sumF (vs : List FVal) : FVal := vs.foldl FVal.add (FVal.fin 0)

/-- Insert into a list sorted by FVal.leB (NaN-free lists are totally
ordered by it). -/
def insertLe (x : FVal) : List FVal → List FVal
  | [] => [x]
  | y :: ys => if x.leB y then x :: y :: ys else y :: insertLe x ys

/-- Insertion sort by FVal.leB. -/
def sortFVal (l : List FVal) : List FVal := l.foldr insertLe []

/-- pandas DataFrame.quantile(q=0.5) over one row: drop NaNs, sort, and take
the linear-interpolation median lo + (hi - lo) * 1/2 (NumPy linear method);
NaN when no non-NaN value remains. -/
def quantile50 (vs : List FVal) : FVal :=
  let xs := sortFVal (nonNanVals vs)
  let n := xs.length
  if n = 0 then FVal.nan
  else if n % 2 = 1 then xs.getD (n / 2) FVal.nan
  else
    let lo := xs.getD (n / 2 - 1) FVal.nan
    let hi := xs.getD (n / 2) FVal.nan
    lo.add ((hi.sub lo).mul (FVal.fin (1 / 2)))

/-- pandas Series.rolling(w).mean(): NaN until w observations exist
(min_periods defaults to the window), otherwise the mean of rows
t-w+1 .. t computed with IEEE arithmetic (a NaN in the window gives NaN). -/
def rollingMean (w : Nat) (xs : Nat → FVal) (t : Nat) : FVal :=
  if t + 1 < w then FVal.nan
  else (((List.range w).map (fun k => xs (t - k))).foldl FVal.add (FVal.fin 0)).div (FVal.fin w)

/-- Forward fill of a time-indexed series, as pandas fillna(method="pad"):
a NaN entry takes the most recent earlier non-NaN value. -/
def ffill (xs : Nat → FVal) : Nat → FVal
  | 0 => xs 0
  | t + 1 => if (xs (t + 1)).isNan then ffill xs t else xs (t + 1)

/-- pandas Series.pct_change() with its default fill_method="pad": the series
is forward-filled first, then filled[t]/filled[t-1] - 1; row 0 is NaN. -/
def pctChangePad (xs : Nat → FVal) (t : Nat) : FVal :=
  if t = 0 then FVal.nan
  else ((ffill xs t).div (ffill xs (t - 1))).sub (FVal.fin 1)

/-- The two fixing sessions. -/
inductive Fixes where
  | LON : Fixes
  | NY : Fixes
  deriving DecidableEq, Repr

/-- State of a Backtest instance. Tables are time-indexed functions per
column name; a table's live columns are the `currencies` derived from
`countries`, exactly as the source derives `self.countries` from the column
set of the spot-fix input. The `spreads` field is Modelled from the spec:
the source's compute_transaction_costs reads `self.spreads`, an attribute
no method ever assigns; per the spec the cost table is an externally
supplied mapping from instrument identifier to per-unit spread cost, which
we carry as a state field (an association list; a missing instrument has no
entry, matching the reindex-with-NaN-fill in the source). -/
structure Backtest where
  countries : List String
  fx_lon : String → Nat → FVal
  fx_ny : String → Nat → FVal
  swaps_lon : String → Nat → FVal
  swaps_ny : String → Nat → FVal
  ma_window : Nat
  spreads : List (String × ℚ)
  signals_lon : String → Nat → FVal
  signals_ny : String → Nat → FVal
  positions : String → Nat → FVal

/-- The instrument column names, reconstructed as country code plus "USD"
exactly as the signal loop does (`country1 + "USD"`). -/
def Backtest.currencies (b : Backtest) : List String :=
  b.countries.map (fun c => c ++ "USD")

/-- Constructor: countries are the first three characters of each input
column; positions and both session signal tables are initialized to all
zeros (`fillna(0)` on freshly created tables). -/
def Backtest.init (currencies : List String)
    (fx_lon fx_ny swaps_lon swaps_ny : String → Nat → FVal)
    (ma_window : Nat) (spreads : List (String × ℚ)) : Backtest :=
  { countries := currencies.map (fun c => c.take 3)
    fx_lon := fx_lon
    fx_ny := fx_ny
    swaps_lon := swaps_lon
    swaps_ny := swaps_ny
    ma_window := ma_window
    spreads := spreads
    signals_lon := fun _ _ => FVal.fin 0
    signals_ny := fun _ _ => FVal.fin 0
    positions := fun _ _ => FVal.fin 0 }

/-- The session's signal table. -/
def Backtest.sigTable (b : Backtest) : Fixes → (String → Nat → FVal)
  | Fixes.LON => b.signals_lon
  | Fixes.NY => b.signals_ny

/-- itertools.combinations over the country list: all pairs (i, j) with i
before j in list order. -/
def pairsOf : List String → List (String × String)
  | [] => []
  | c :: rest => rest.map (fun d => (c, d)) ++ pairsOf rest

/-- One pair's raw subsignal column:
diff[t] = swap[c1+USD][t] - swap[c2+USD][t], avg = rolling mean of diff over
ma_window, sub[t] = (diff[t] - avg[t]) / abs(avg[t]). -/
def subCol (swaps : String → Nat → FVal) (w : Nat) (c1 c2 : String) (t : Nat) : FVal :=
  let diff := fun s => (swaps (c1 ++ "USD") s).sub (swaps (c2 ++ "USD") s)
  ((diff t).sub (rollingMean w diff t)).div (rollingMean w diff t).abs

/-- Per-timestamp threshold: the cross-pair median (quantile q=0.5, NaN
skipped) of the absolute subsignals of the row, computed before the
threshold column is appended. -/
def thresholdAt (countries : List String) (swaps : String → Nat → FVal)
    (w : Nat) (t : Nat) : FVal :=
  quantile50 ((pairsOf countries).map (fun p => (subCol swaps w p.1 p.2 t).abs))

/-- The three sequential masked assignments of the source, applied to one
cell: set 1 where abs(v) > threshold and v >= 0, set -1 where
abs(v) > threshold and v < 0, then zero every cell whose absolute value is
not exactly 1 (NaN != 1 is True elementwise, so NaN cells become 0; a raw
value exactly equal to ±1 survives the third mask unchanged). -/
def discretize (v thr : FVal) : FVal :=
  if thr.ltB v.abs && (FVal.fin 0).leB v then FVal.fin 1
  else if thr.ltB v.abs && v.ltB (FVal.fin 0) then FVal.fin (-1)
  else if v.abs = FVal.fin 1 then v
  else FVal.fin 0

/-- One loop iteration of the composite-signal accumulation: add the pair's
discretized column to instrument c1's signal and subtract it from
instrument c2's signal. -/
def applyPair (swaps : String → Nat → FVal) (w : Nat) (thr : Nat → FVal)
    (p : String × String) (tab : String → Nat → FVal) : String → Nat → FVal :=
  fun cur t =>
    let d := discretize (subCol swaps w p.1 p.2 t) (thr t)
    let v := tab cur t
    let v1 := if cur = p.1 ++ "USD" then v.add d else v
    if cur = p.2 ++ "USD" then v1.sub d else v1

/-- The full signal update: fold the per-pair accumulation over all country
pairs, starting from the session's current signal table (the source never
resets it). -/
def signalsUpdate (countries : List String) (swaps : String → Nat → FVal)
    (w : Nat) (tab : String → Nat → FVal) : String → Nat → FVal :=
  (pairsOf countries).foldl
    (fun tb p => applyPair swaps w (thresholdAt countries swaps w) p tb) tab

/-- Backtest.compute_signals for a session: accumulates the pairwise
discretized columns into that session's signal table. -/
def Backtest.computeSignals (b : Backtest) : Fixes → Backtest
  | Fixes.LON =>
      { b with signals_lon := signalsUpdate b.countries b.swaps_lon b.ma_window b.signals_lon }
  | Fixes.NY =>
      { b with signals_ny := signalsUpdate b.countries b.swaps_ny b.ma_window b.signals_ny }

/-- Backtest.compute_positions: base_amt[t] = target_gross_exposure divided
by the skipna row sum of absolute signals, position[c][t] =
signal[c][t] * base_amt[t]; the single shared position table is
overwritten. -/
def Backtest.computePositions (b : Backtest) (fix : Fixes) (tge : ℚ) : Backtest :=
  let signal := b.sigTable fix
  let base := fun t =>
    (FVal.fin tge).div (sumSkipNan (b.currencies.map (fun c => (signal c t).abs)))
  { b with positions := fun cur t => (signal cur t).mul (base t) }

/-- Unit-cost lookup: the spreads row reindexed to the position columns, a
column missing from the cost table becoming NaN. -/
def spreadLookup (sp : List (String × ℚ)) (cur : String) : FVal :=
  match sp.lookup cur with
  | some q => FVal.fin q
  | none => FVal.nan

/-- Backtest.compute_transaction_costs:
cost[c][t] = abs(position[c][t] - position[c][t-1]) * unit_cost[c]; the
diff at the first row is NaN (no prior position). -/
def Backtest.computeTransactionCosts (b : Backtest) : String → Nat → FVal :=
  fun cur t =>
    let chg := if t = 0 then FVal.nan
      else ((b.positions cur t).sub (b.positions cur (t - 1))).abs
    chg.mul (spreadLookup b.spreads cur)

/-- One instrument's P&L cell: the LON spot pct_change (pandas pct_change,
with its default forward-fill) times the position shifted one row down
(NaN at row 0). The align step of the source is the identity here because
the position table and the spot table share the currency columns. -/
def pnlInst (b : Backtest) (cur : String) (t : Nat) : FVal :=
  (pctChangePad (b.fx_lon cur) t).mul
    (if t = 0 then FVal.nan else b.positions cur (t - 1))

/-- Backtest.compute_pnl: per-instrument P&L plus the "total" column (the
skipna cross-instrument row sum) and the "total_pct" column (total divided
by the literal 1,000,000 of the source). The spot table used is always
fx_lon_fixes. -/
def Backtest.computePnl (b : Backtest) : String → Nat → FVal :=
  fun col t =>
    if col = "total" then sumSkipNan (b.currencies.map (fun c => pnlInst b c t))
    else if col = "total_pct" then
      (sumSkipNan (b.currencies.map (fun c => pnlInst b c t))).div (FVal.fin 1000000)
    else pnlInst b col t

/-- Backtest.run: compute_signals(LON), compute_positions(LON) with the
default exposure, compute_pnl; returns the final state and the stored pnl
table (self.pnl). -/
def Backtest.run (b : Backtest) : Backtest × (String → Nat → FVal) :=
  let b1 := b.computeSignals Fixes.LON
  let b2 := b1.computePositions Fixes.LON 1000000
  (b2, b2.computePnl)

/-- pandas mean with skipna: NaN when no non-NaN value exists, otherwise the
IEEE sum of the non-NaN values divided by their count. -/
def skipnaMean (vs : List FVal) : FVal :=
  let xs := nonNanVals vs
  if xs.length = 0 then FVal.nan
  else (xs.foldl FVal.add (FVal.fin 0)).div (FVal.fin xs.length)

/-- pandas sample variance (ddof=1, skipna): NaN when fewer than two non-NaN
observations exist (the 0/0 of the source's std), otherwise the sum of
squared deviations over count - 1. -/
def sampleVarSkipna (vs : List FVal) : FVal :=
  let xs := nonNanVals vs
  if xs.length < 2 then FVal.nan
  else
    let m := skipnaMean vs
    ((xs.map (fun x => (x.sub m).mul (x.sub m))).foldl FVal.add (FVal.fin 0)).div
      (FVal.fin (xs.length - 1))

/-- Square root lifted to FVal. The finite branch takes an abstract
function sq standing for the real square root (its finite output values
never decide any property proved here, only NaN-ness does, so theorems
quantify over sq); NaN on negative input and on NaN, as np.sqrt. -/
def fvalSqrt (sq : ℚ → ℚ) : FVal → FVal
  | FVal.nan => FVal.nan
  | FVal.pinf => FVal.pinf
  | FVal.ninf => FVal.nan
  | FVal.fin q => if q < 0 then FVal.nan else FVal.fin (sq q)

/-- compute_return for one resampled year: col.mean() * len(col); len
counts every row of the year, NaN rows included. -/
def computeReturnY (vs : List FVal) : FVal :=
  (skipnaMean vs).mul (FVal.fin vs.length)

/-- compute_vol for one resampled year: col.std() * np.sqrt(len(col)). -/
def computeVolY (sq : ℚ → ℚ) (vs : List FVal) : FVal :=
  (fvalSqrt sq (sampleVarSkipna vs)).mul (FVal.fin (sq (Nat.cast vs.length)))

/-- The Sharpe ratio of one resampled year: annual return over annual
volatility. -/
def sharpeY (sq : ℚ → ℚ) (vs : List FVal) : FVal :=
  (computeReturnY vs).div (computeVolY sq vs)

/-- The total_pct observations falling in calendar year y, in time order:
the resample("Y") bucket of Backtest.compute_stats. -/
def yearGroup (rows : List (Int × FVal)) (y : Int) : List FVal :=
  (rows.filter (fun r => r.1 = y)).map (fun r => r.2)

/-- One row of the stats table for year y: (return, vol, sharpe). -/
def computeStatsRow (sq : ℚ → ℚ) (rows : List (Int × FVal)) (y : Int) :
    FVal × FVal × FVal :=
  (computeReturnY (yearGroup rows y), computeVolY sq (yearGroup rows y),
    sharpeY sq (yearGroup rows y))

/-- The rational carried by a finite value (0 otherwise). -/
def FVal.finPart : FVal → ℚ
  | FVal.fin q => q
  | _ => 0

/-- The rational a single discretized cell ends up holding: 1 or -1 where
the threshold test fires, the raw rational itself where its absolute value
is exactly 1, and 0 everywhere else. -/
def discretizeQ (v thr : FVal) : ℚ :=
  if thr.ltB v.abs && (FVal.fin 0).leB v then 1
  else if thr.ltB v.abs && v.ltB (FVal.fin 0) then -1
  else if v.abs = FVal.fin 1 then v.finPart
  else 0

theorem discretize_eq_fin (v thr : FVal) :
    discretize v thr = FVal.fin (discretizeQ v thr) := by
  unfold discretize discretizeQ
  split_ifs with h1 h2 h3
  · rfl
  · rfl
  · cases v with
    | nan => simp [FVal.abs] at h3
    | pinf => simp [FVal.abs] at h3
    | ninf => simp [FVal.abs] at h3
    | fin q => rfl
  · rfl

theorem FVal.add_fin_zero (x : FVal) : x.add (FVal.fin 0) = x := by
  cases x <;> simp [FVal.add]

theorem FVal.add_fin_fin (x : FVal) (a b : ℚ) :
    (x.add (FVal.fin a)).add (FVal.fin b) = x.add (FVal.fin (a + b)) := by
  cases x <;> simp [FVal.add, add_assoc]

theorem FVal.sub_fin (x : FVal) (a : ℚ) :
    x.sub (FVal.fin a) = x.add (FVal.fin (-a)) := rfl

theorem FVal.mul_nan (x : FVal) : x.mul FVal.nan = FVal.nan := by
  cases x <;> rfl

theorem FVal.nan_mul (x : FVal) : FVal.nan.mul x = FVal.nan := by
  cases x <;> rfl

theorem FVal.div_nan (x : FVal) : x.div FVal.nan = FVal.nan := by
  cases x <;> rfl

theorem FVal.nan_div (x : FVal) : FVal.nan.div x = FVal.nan := by
  cases x <;> rfl

theorem FVal.sub_nan (x : FVal) : x.sub FVal.nan = FVal.nan := by
  cases x <;> rfl

theorem FVal.nan_sub (x : FVal) : FVal.nan.sub x = FVal.nan := by
  cases x <;> rfl

theorem FVal.nan_add (x : FVal) : FVal.nan.add x = FVal.nan := by
  cases x <;> rfl

theorem FVal.ltB_irrefl (v : FVal) : v.ltB v = false := by
  cases v with
  | nan => rfl
  | pinf => rfl
  | ninf => rfl
  | fin q => simp [FVal.ltB]

theorem foldl_add_map_fin (l : List ℚ) (a : ℚ) :
    (l.map FVal.fin).foldl FVal.add (FVal.fin a) = FVal.fin (a + l.sum) := by
  induction l generalizing a with
  | nil => simp [FVal.add]
  | cons q l ih => simp [FVal.add, ih, add_assoc]

theorem nonNanVals_map_fin (l : List ℚ) :
    nonNanVals (l.map FVal.fin) = l.map FVal.fin := by
  unfold nonNanVals
  induction l with
  | nil => rfl
  | cons q l ih => simp [FVal.isNan, ih]

theorem sumSkipNan_map_fin (l : List ℚ) :
    sumSkipNan (l.map FVal.fin) = FVal.fin l.sum := by
  unfold sumSkipNan
  rw [nonNanVals_map_fin, foldl_add_map_fin]
  simp

theorem sumF_map_fin (l : List ℚ) : sumF (l.map FVal.fin) = FVal.fin l.sum := by
  unfold sumF
  rw [foldl_add_map_fin]
  simp

/-- The rational contribution one pair's loop iteration makes to one
instrument's composite signal cell. -/
def pairContrib (swaps : String → Nat → FVal) (w : Nat) (thr : Nat → FVal)
    (p : String × String) (cur : String) (t : Nat) : ℚ :=
  (if cur = p.1 ++ "USD" then discretizeQ (subCol swaps w p.1 p.2 t) (thr t) else 0)
  - (if cur = p.2 ++ "USD" then discretizeQ (subCol swaps w p.1 p.2 t) (thr t) else 0)

/-- The total rational added to one cell by a list of pair iterations. -/
def sigDeltaList (swaps : String → Nat → FVal) (w : Nat) (thr : Nat → FVal)
    (ps : List (String × String)) (cur : String) (t : Nat) : ℚ :=
  (ps.map (fun p => pairContrib swaps w thr p cur t)).sum

theorem FVal.add_fin_congr (x : FVal) {a b : ℚ} (h : a = b) :
    x.add (FVal.fin a) = x.add (FVal.fin b) := by rw [h]

theorem applyPair_eq (swaps : String → Nat → FVal) (w : Nat) (thr : Nat → FVal)
    (p : String × String) (tab : String → Nat → FVal) (cur : String) (t : Nat) :
    applyPair swaps w thr p tab cur t
      = (tab cur t).add (FVal.fin (pairContrib swaps w thr p cur t)) := by
  simp only [applyPair, pairContrib, discretize_eq_fin]
  by_cases h1 : cur = p.1 ++ "USD" <;> by_cases h2 : cur = p.2 ++ "USD"
  · simp only [if_pos h1, if_pos h2, FVal.sub_fin, FVal.add_fin_fin]
    exact FVal.add_fin_congr _ (by ring)
  · simp only [if_pos h1, if_neg h2]
    exact FVal.add_fin_congr _ (by ring)
  · simp only [if_neg h1, if_pos h2, FVal.sub_fin]
    exact FVal.add_fin_congr _ (by ring)
  · simp only [if_neg h1, if_neg h2]
    norm_num [FVal.add_fin_zero]

theorem foldl_applyPair (swaps : String → Nat → FVal) (w : Nat) (thr : Nat → FVal)
    (ps : List (String × String)) (tab : String → Nat → FVal) (cur : String) (t : Nat) :
    (ps.foldl (fun tb p => applyPair swaps w thr p tb) tab) cur t
      = (tab cur t).add (FVal.fin (sigDeltaList swaps w thr ps cur t)) := by
  induction ps generalizing tab with
  | nil => simp [sigDeltaList, FVal.add_fin_zero]
  | cons p ps ih =>
      simp only [List.foldl_cons]
      rw [ih, applyPair_eq, FVal.add_fin_fin]
      simp [sigDeltaList]

/-- The session's swap table. -/
def Backtest.swapsOf (b : Backtest) : Fixes → (String → Nat → FVal)
  | Fixes.LON => b.swaps_lon
  | Fixes.NY => b.swaps_ny

theorem computeSignals_sigTable (b : Backtest) (fix : Fixes) (cur : String) (t : Nat) :
    (b.computeSignals fix).sigTable fix cur t
      = (b.sigTable fix cur t).add
          (FVal.fin (sigDeltaList (b.swapsOf fix) b.ma_window
            (thresholdAt b.countries (b.swapsOf fix) b.ma_window)
            (pairsOf b.countries) cur t)) := by
  cases fix <;>
    simp [Backtest.computeSignals, Backtest.sigTable, Backtest.swapsOf,
      signalsUpdate, foldl_applyPair]

theorem computeSignals_countries (b : Backtest) (fix : Fixes) :
    (b.computeSignals fix).countries = b.countries := by
  cases fix <;> rfl

theorem computeSignals_ma_window (b : Backtest) (fix : Fixes) :
    (b.computeSignals fix).ma_window = b.ma_window := by
  cases fix <;> rfl

theorem computeSignals_swapsOf (b : Backtest) (fix fix2 : Fixes) :
    (b.computeSignals fix).swapsOf fix2 = b.swapsOf fix2 := by
  cases fix <;> cases fix2 <;> rfl

theorem quantile50_single (v : FVal) :
    quantile50 [v] = if v.isNan then FVal.nan else v := by
  cases v <;> simp [quantile50, nonNanVals, sortFVal, insertLe, FVal.isNan]

theorem ltB_quantile50_single (v : FVal) : (quantile50 [v]).ltB v = false := by
  rw [quantile50_single]
  cases v with
  | nan => rfl
  | pinf => rfl
  | ninf => rfl
  | fin q => simp [FVal.isNan, FVal.ltB_irrefl]

theorem discretize_self_threshold (v : FVal) :
    discretize v (quantile50 [v.abs]) = if v.abs = FVal.fin 1 then v else FVal.fin 0 := by
  unfold discretize
  rw [ltB_quantile50_single]
  simp

theorem FVal.abs_fin_exists (v : FVal) (a : ℚ) (h : v.abs = FVal.fin a) :
    ∃ q : ℚ, v = FVal.fin q := by
  cases v with
  | nan => simp [FVal.abs] at h
  | pinf => simp [FVal.abs] at h
  | ninf => simp [FVal.abs] at h
  | fin q => exact ⟨q, rfl⟩

theorem discretizeQ_self (v : FVal) :
    discretizeQ v (quantile50 [v.abs]) = if v.abs = FVal.fin 1 then v.finPart else 0 := by
  have h := (discretize_eq_fin v (quantile50 [v.abs])).symm.trans (discretize_self_threshold v)
  by_cases habs : v.abs = FVal.fin 1
  · obtain ⟨q, hq⟩ := FVal.abs_fin_exists v 1 habs
    subst hq
    rw [if_pos habs] at h
    rw [if_pos habs]
    exact FVal.fin.inj h
  · rw [if_neg habs] at h
    rw [if_neg habs]
    exact FVal.fin.inj h

/-- C10: compute_signals accumulates with += and -= into a signal table it
never resets, so from the all-zero initial table a second identical call
leaves every composite signal cell at exactly twice the value a single call
produces. -/
theorem compute_signals_double_call (b : Backtest) (fix : Fixes) (cur : String) (t : Nat)
    (h : ∀ c s, b.sigTable fix c s = FVal.fin 0) :
    ((b.computeSignals fix).computeSignals fix).sigTable fix cur t
      = FVal.mul (FVal.fin 2) ((b.computeSignals fix).sigTable fix cur t) := by
  rw [computeSignals_sigTable (b.computeSignals fix) fix cur t,
    computeSignals_sigTable b fix cur t, computeSignals_countries,
    computeSignals_ma_window, computeSignals_swapsOf, h cur t]
  simp [FVal.add, FVal.mul]
  ring

/-- Concrete two-instrument input used to witness the double-call claim. -/
def doubleCallSwaps : String → Nat → FVal := fun cur t =>
  if cur = "AAAUSD" then (if t = 0 then FVal.fin 2 else FVal.fin 0) else FVal.fin 0

/-- Concrete Backtest state for the double-call witness. -/
def doubleCallState : Backtest :=
  Backtest.init ["AAAUSD", "BBBUSD"] (fun _ _ => FVal.fin 1) (fun _ _ => FVal.fin 1)
    doubleCallSwaps doubleCallSwaps 2 []

/-- Witness for C10 at a concrete state and cell. -/
theorem compute_signals_double_call_witness :
    ((doubleCallState.computeSignals Fixes.LON).computeSignals Fixes.LON).sigTable
        Fixes.LON "AAAUSD" 1
      = FVal.mul (FVal.fin 2)
          ((doubleCallState.computeSignals Fixes.LON).sigTable Fixes.LON "AAAUSD" 1) :=
  compute_signals_double_call doubleCallState Fixes.LON "AAAUSD" 1 (fun _ _ => rfl)

/-- C7 counterexample: a two-instrument input on which the composite signal
is not identically zero. With swaps making the pair's diff column (2, 0)
and ma_window 2, the raw subsignal at t = 1 is (0 - 1)/|1| = -1; the
threshold (the median of the single pair) equals 1, so the strict
comparison never fires, but the third mask keeps a raw value whose absolute
value is exactly 1, so the composite signal at t = 1 is -1, not 0. -/
def twoInstState : Backtest :=
  Backtest.init ["AAAUSD", "BBBUSD"] (fun _ _ => FVal.fin 1) (fun _ _ => FVal.fin 1)
    (fun cur t => if cur = "AAAUSD" then (if t = 0 then FVal.fin 2 else FVal.fin 0)
      else FVal.fin 0)
    (fun _ _ => FVal.fin 0) 2 []

/-- Counterexample for C7: exactly two instruments, yet the signal at
timestamp 1 is -1. -/
theorem two_instrument_nonzero_signal :
    twoInstState.countries = ["AAA", "BBB"]
    ∧ (twoInstState.computeSignals Fixes.LON).signals_lon "AAAUSD" 1 = FVal.fin (-1) := by
  have hc : twoInstState.countries = ["AAA", "BBB"] := by decide
  refine ⟨hc, ?_⟩
  have hv : subCol (twoInstState.swapsOf Fixes.LON) 2 "AAA" "BBB" 1 = FVal.fin (-1) := by
    simp only [twoInstState, Backtest.init, Backtest.swapsOf, subCol,
      String.reduceAppend, String.reduceEq, reduceIte]
    norm_num [rollingMean, List.range_succ, List.range_zero, FVal.sub, FVal.neg,
      FVal.add, FVal.div, FVal.abs]
  have hm : twoInstState.ma_window = 2 := rfl
  rw [show (twoInstState.computeSignals Fixes.LON).signals_lon
      = (twoInstState.computeSignals Fixes.LON).sigTable Fixes.LON from rfl,
    computeSignals_sigTable, hc, hm]
  rw [show twoInstState.sigTable Fixes.LON "AAAUSD" 1 = FVal.fin 0 from rfl]
  have hthr : thresholdAt ["AAA", "BBB"] (twoInstState.swapsOf Fixes.LON) 2 1 = FVal.fin 1 := by
    simp only [thresholdAt, pairsOf, List.map_cons, List.map_nil, List.append_nil, hv]
    norm_num [FVal.abs, quantile50_single, FVal.isNan]
  simp only [sigDeltaList, pairsOf, List.map_cons, List.map_nil, List.append_nil,
    List.sum_cons, List.sum_nil, pairContrib, String.reduceAppend, String.reduceEq,
    reduceIte, hthr, hv]
  norm_num [discretizeQ, FVal.ltB, FVal.leB, FVal.abs, FVal.finPart, FVal.add]

/-- C7 amended: with exactly two instruments the strict condition
abs(sub) > threshold is never satisfied (the per-timestamp median
degenerates to the single pair's own absolute value), so the composite
signal is zero at every timestamp except those where the raw subsignal is
exactly plus or minus 1, where the kept raw value makes instrument one's
signal that value and instrument two's its negation. -/
theorem two_instrument_signals (b : Backtest) (fix : Fixes) (c1 c2 : String) (t : Nat)
    (hc : b.countries = [c1, c2])
    (hne : c1 ++ "USD" ≠ c2 ++ "USD")
    (h0 : ∀ c s, b.sigTable fix c s = FVal.fin 0) :
    (thresholdAt b.countries (b.swapsOf fix) b.ma_window t).ltB
        (subCol (b.swapsOf fix) b.ma_window c1 c2 t).abs = false
    ∧ (b.computeSignals fix).sigTable fix (c1 ++ "USD") t
        = (if (subCol (b.swapsOf fix) b.ma_window c1 c2 t).abs = FVal.fin 1
            then subCol (b.swapsOf fix) b.ma_window c1 c2 t else FVal.fin 0)
    ∧ (b.computeSignals fix).sigTable fix (c2 ++ "USD") t
        = (if (subCol (b.swapsOf fix) b.ma_window c1 c2 t).abs = FVal.fin 1
            then (subCol (b.swapsOf fix) b.ma_window c1 c2 t).neg else FVal.fin 0) := by
  have hne2 : c2 ++ "USD" ≠ c1 ++ "USD" := fun hh => hne hh.symm
  have hthr : thresholdAt b.countries (b.swapsOf fix) b.ma_window
      = fun s => quantile50 [(subCol (b.swapsOf fix) b.ma_window c1 c2 s).abs] := by
    rw [hc]
    rfl
  refine ⟨?_, ?_, ?_⟩
  · rw [hthr]
    exact ltB_quantile50_single _
  · rw [computeSignals_sigTable, h0, hc]
    show (FVal.fin 0).add (FVal.fin (sigDeltaList (b.swapsOf fix) b.ma_window
      (thresholdAt [c1, c2] (b.swapsOf fix) b.ma_window) [(c1, c2)] (c1 ++ "USD") t)) = _
    rw [show thresholdAt [c1, c2] (b.swapsOf fix) b.ma_window
        = fun s => quantile50 [(subCol (b.swapsOf fix) b.ma_window c1 c2 s).abs] from rfl]
    simp only [sigDeltaList, pairContrib, List.map_cons, List.map_nil, List.sum_cons,
      List.sum_nil, if_pos rfl, if_neg hne, discretizeQ_self]
    by_cases habs : (subCol (b.swapsOf fix) b.ma_window c1 c2 t).abs = FVal.fin 1
    · obtain ⟨q, hq⟩ := FVal.abs_fin_exists _ 1 habs
      rw [hq] at habs
      simp only [hq, if_pos habs]
      simp [FVal.add, FVal.finPart]
    · simp only [if_neg habs]
      simp [FVal.add]
  · rw [computeSignals_sigTable, h0, hc]
    show (FVal.fin 0).add (FVal.fin (sigDeltaList (b.swapsOf fix) b.ma_window
      (thresholdAt [c1, c2] (b.swapsOf fix) b.ma_window) [(c1, c2)] (c2 ++ "USD") t)) = _
    rw [show thresholdAt [c1, c2] (b.swapsOf fix) b.ma_window
        = fun s => quantile50 [(subCol (b.swapsOf fix) b.ma_window c1 c2 s).abs] from rfl]
    simp only [sigDeltaList, pairContrib, List.map_cons, List.map_nil, List.sum_cons,
      List.sum_nil, if_pos rfl, if_neg hne2, discretizeQ_self]
    by_cases habs : (subCol (b.swapsOf fix) b.ma_window c1 c2 t).abs = FVal.fin 1
    · obtain ⟨q, hq⟩ := FVal.abs_fin_exists _ 1 habs
      rw [hq] at habs
      simp only [hq, if_pos habs]
      simp [FVal.add, FVal.neg, FVal.finPart]
    · simp only [if_neg habs]
      simp [FVal.add, FVal.neg]

/-- Concrete state for the C7 amended-theorem witness: same two-instrument
input as the counterexample, evaluated at timestamp 0 (warm-up, subsignal
NaN, signal 0). -/
def twoInstWitnessState : Backtest :=
  Backtest.init ["CCCUSD", "DDDUSD"] (fun _ _ => FVal.fin 1) (fun _ _ => FVal.fin 1)
    (fun cur t => if cur = "CCCUSD" then (if t = 0 then FVal.fin 2 else FVal.fin 0)
      else FVal.fin 0)
    (fun _ _ => FVal.fin 0) 2 []

/-- Witness for the C7 amended theorem at a concrete state. -/
theorem two_instrument_signals_witness :
    ((thresholdAt twoInstWitnessState.countries (twoInstWitnessState.swapsOf Fixes.LON)
        twoInstWitnessState.ma_window 1).ltB
      (subCol (twoInstWitnessState.swapsOf Fixes.LON) twoInstWitnessState.ma_window
        "CCC" "DDD" 1).abs = false)
    ∧ (twoInstWitnessState.computeSignals Fixes.LON).sigTable Fixes.LON "CCCUSD" 1
        = (if (subCol (twoInstWitnessState.swapsOf Fixes.LON)
              twoInstWitnessState.ma_window "CCC" "DDD" 1).abs = FVal.fin 1
            then subCol (twoInstWitnessState.swapsOf Fixes.LON)
              twoInstWitnessState.ma_window "CCC" "DDD" 1 else FVal.fin 0)
    ∧ (twoInstWitnessState.computeSignals Fixes.LON).sigTable Fixes.LON "DDDUSD" 1
        = (if (subCol (twoInstWitnessState.swapsOf Fixes.LON)
              twoInstWitnessState.ma_window "CCC" "DDD" 1).abs = FVal.fin 1
            then (subCol (twoInstWitnessState.swapsOf Fixes.LON)
              twoInstWitnessState.ma_window "CCC" "DDD" 1).neg else FVal.fin 0) := by
  have h := two_instrument_signals twoInstWitnessState Fixes.LON "CCC" "DDD" 1 rfl
    (by decide) (fun _ _ => rfl)
  exact h

theorem exists_fin_list (l : List FVal) (h : ∀ v ∈ l, ∃ q : ℚ, v = FVal.fin q) :
    ∃ qs : List ℚ, l = qs.map FVal.fin := by
  induction l with
  | nil => exact ⟨[], rfl⟩
  | cons v l ih =>
      obtain ⟨q, hq⟩ := h v (List.mem_cons_self v l)
      obtain ⟨qs, hqs⟩ := ih (fun x hx => h x (List.mem_cons_of_mem v hx))
      exact ⟨q :: qs, by rw [List.map_cons, hq, hqs]⟩

theorem map_comp_of_map_eq {α β γ δ : Type} (cs : List α) (f : α → β) (qs : List γ)
    (g : β → δ) (e : γ → β) (h : cs.map f = qs.map e) :
    cs.map (fun c => g (f c)) = qs.map (fun q => g (e q)) := by
  have h2 := congrArg (List.map g) h
  simpa [List.map_map, Function.comp] using h2

/-- C2: whenever at least one composite signal at timestamp t is nonzero
(signal values being rationals, as the integer-valued signal tables of the
data model are), the positions produced by compute_positions have absolute
values summing exactly to the target gross exposure. -/
theorem positions_gross_exposure (b : Backtest) (fix : Fixes) (tge : ℚ) (t : Nat)
    (hfin : ∀ c ∈ b.currencies, ∃ q : ℚ, b.sigTable fix c t = FVal.fin q)
    (hnz : ∃ c ∈ b.currencies, b.sigTable fix c t ≠ FVal.fin 0)
    (htge : 0 < tge) :
    sumF ((b.computePositions fix tge).currencies.map
      (fun c => ((b.computePositions fix tge).positions c t).abs)) = FVal.fin tge := by
  obtain ⟨qs, hqs⟩ := exists_fin_list (b.currencies.map (fun c => b.sigTable fix c t))
    (by
      intro v hv
      obtain ⟨c, hc, rfl⟩ := List.mem_map.mp hv
      exact hfin c hc)
  set S : ℚ := (qs.map (fun q => |q|)).sum with hS
  have habs : b.currencies.map (fun c => (b.sigTable fix c t).abs)
      = (qs.map (fun q => |q|)).map FVal.fin := by
    have h2 := map_comp_of_map_eq b.currencies (fun c => b.sigTable fix c t) qs
      FVal.abs FVal.fin hqs
    rw [h2]
    simp [FVal.abs, List.map_map, Function.comp]
  have hSpos : 0 < S := by
    obtain ⟨c, hc, hcnz⟩ := hnz
    have hmem : b.sigTable fix c t ∈ qs.map FVal.fin := by
      rw [← hqs]
      exact List.mem_map_of_mem (fun c => b.sigTable fix c t) hc
    obtain ⟨q, hqmem, hq⟩ := List.mem_map.mp hmem
    have hqne : q ≠ 0 := by
      intro h0
      rw [h0] at hq
      exact hcnz hq.symm
    have h1 : |q| ∈ qs.map (fun q => |q|) := List.mem_map_of_mem (fun q => |q|) hqmem
    have h2 : |q| ≤ S := List.single_le_sum (by
      intro x hx
      obtain ⟨y, _, rfl⟩ := List.mem_map.mp hx
      exact abs_nonneg y) _ h1
    exact lt_of_lt_of_le (abs_pos.mpr hqne) h2
  have hsum : sumSkipNan (b.currencies.map (fun c => (b.sigTable fix c t).abs))
      = FVal.fin S := by
    rw [habs, sumSkipNan_map_fin, hS]
  have hbase : (FVal.fin tge).div
      (sumSkipNan (b.currencies.map (fun c => (b.sigTable fix c t).abs)))
      = FVal.fin (tge / S) := by
    rw [hsum]
    simp [FVal.div, hSpos.ne']
  have hposfun : (b.computePositions fix tge).positions = fun cur s =>
      (b.sigTable fix cur s).mul ((FVal.fin tge).div
        (sumSkipNan (b.currencies.map (fun c => (b.sigTable fix c s).abs)))) := rfl
  have hcur : (b.computePositions fix tge).currencies = b.currencies := rfl
  rw [hcur, hposfun]
  have hlist : b.currencies.map (fun c => ((b.sigTable fix c t).mul ((FVal.fin tge).div
        (sumSkipNan (b.currencies.map (fun c => (b.sigTable fix c t).abs))))).abs)
      = (qs.map (fun q => |q| * (tge / S))).map FVal.fin := by
    rw [hbase]
    have h2 := map_comp_of_map_eq b.currencies (fun c => b.sigTable fix c t) qs
      (fun v => (v.mul (FVal.fin (tge / S))).abs) FVal.fin hqs
    rw [h2]
    have hr : 0 ≤ tge / S := le_of_lt (div_pos htge hSpos)
    simp [FVal.mul, FVal.abs, List.map_map, Function.comp, abs_mul, abs_of_nonneg hr]
  rw [hlist, sumF_map_fin, List.sum_map_mul_right]
  rw [← hS, mul_div_cancel₀ tge hSpos.ne']

/-- Concrete state for the C2 witness: two instruments, both signals 1 at
every timestamp, target gross exposure 10. -/
def grossExposureState : Backtest :=
  { countries := ["EEE", "FFF"]
    fx_lon := fun _ _ => FVal.fin 1
    fx_ny := fun _ _ => FVal.fin 1
    swaps_lon := fun _ _ => FVal.fin 1
    swaps_ny := fun _ _ => FVal.fin 1
    ma_window := 2
    spreads := []
    signals_lon := fun _ _ => FVal.fin 1
    signals_ny := fun _ _ => FVal.fin 0
    positions := fun _ _ => FVal.fin 0 }

/-- Witness for C2 at a concrete state. -/
theorem positions_gross_exposure_witness :
    sumF ((grossExposureState.computePositions Fixes.LON 10).currencies.map
      (fun c => ((grossExposureState.computePositions Fixes.LON 10).positions c 0).abs))
      = FVal.fin 10 :=
  positions_gross_exposure grossExposureState Fixes.LON 10 0
    (fun _ _ => ⟨1, rfl⟩)
    ⟨"EEEUSD", by decide, by simp [grossExposureState, Backtest.sigTable]⟩
    (by norm_num)

/-- C5: compute_transaction_costs returns
abs(position[t] - position[t-1]) * unit_cost; an instrument missing from
the cost table gets NaN cost (no error: the lookup is a reindex that fills
NaN), and the first timestamp's cost is NaN because the position diff has
no prior row. -/
theorem transaction_costs_spec (b : Backtest) (cur : String) (t : Nat) (u : ℚ) :
    (b.spreads.lookup cur = none → b.computeTransactionCosts cur t = FVal.nan)
    ∧ b.computeTransactionCosts cur 0 = FVal.nan
    ∧ (1 ≤ t → b.spreads.lookup cur = some u →
        b.computeTransactionCosts cur t
          = ((b.positions cur t).sub (b.positions cur (t - 1))).abs.mul (FVal.fin u)) := by
  refine ⟨?_, ?_, ?_⟩
  · intro h
    unfold Backtest.computeTransactionCosts spreadLookup
    rw [h]
    exact FVal.mul_nan _
  · unfold Backtest.computeTransactionCosts
    exact FVal.nan_mul _
  · intro ht hu
    unfold Backtest.computeTransactionCosts spreadLookup
    rw [hu]
    have ht0 : t ≠ 0 := by omega
    rw [if_neg ht0]

/-- Concrete state for the C5 witness: one instrument with a cost entry of
1/2, constant positions. -/
def costState : Backtest :=
  { countries := ["GGG"]
    fx_lon := fun _ _ => FVal.fin 1
    fx_ny := fun _ _ => FVal.fin 1
    swaps_lon := fun _ _ => FVal.fin 1
    swaps_ny := fun _ _ => FVal.fin 1
    ma_window := 2
    spreads := [("GGGUSD", 1 / 2)]
    signals_lon := fun _ _ => FVal.fin 0
    signals_ny := fun _ _ => FVal.fin 0
    positions := fun _ _ => FVal.fin 3 }

/-- Witness for C5 at a concrete state: a missing instrument, the first
timestamp, and a present instrument at timestamp 1. -/
theorem transaction_costs_spec_witness :
    costState.computeTransactionCosts "HHHUSD" 1 = FVal.nan
    ∧ costState.computeTransactionCosts "GGGUSD" 0 = FVal.nan
    ∧ costState.computeTransactionCosts "GGGUSD" 1
        = ((costState.positions "GGGUSD" 1).sub (costState.positions "GGGUSD" 0)).abs.mul
          (FVal.fin (1 / 2)) :=
  ⟨(transaction_costs_spec costState "HHHUSD" 1 0).1 rfl,
   (transaction_costs_spec costState "GGGUSD" 0 0).2.1,
   (transaction_costs_spec costState "GGGUSD" 1 (1 / 2)).2.2 (by norm_num) rfl⟩

/-- C9: a calendar year whose total_pct bucket has fewer than two defined
observations yields NaN annual volatility (the sample standard deviation's
0/0 with ddof=1) and hence NaN Sharpe; the computation is a total function,
no exception is raised. The theorem holds for every function sq standing
for the square root. -/
theorem stats_undefined_few_obs (sq : ℚ → ℚ) (rows : List (Int × FVal)) (y : Int)
    (h : (nonNanVals (yearGroup rows y)).length < 2) :
    computeVolY sq (yearGroup rows y) = FVal.nan
    ∧ sharpeY sq (yearGroup rows y) = FVal.nan := by
  have hvar : sampleVarSkipna (yearGroup rows y) = FVal.nan := by
    unfold sampleVarSkipna
    exact if_pos h
  have hvol : computeVolY sq (yearGroup rows y) = FVal.nan := by
    unfold computeVolY
    rw [hvar]
    rfl
  refine ⟨hvol, ?_⟩
  unfold sharpeY
  rw [hvol]
  exact FVal.div_nan _

/-- Witness for C9: a year with a single observation. -/
theorem stats_undefined_few_obs_witness :
    computeVolY id (yearGroup [((2020 : Int), FVal.fin 1)] 2020) = FVal.nan
    ∧ sharpeY id (yearGroup [((2020 : Int), FVal.fin 1)] 2020) = FVal.nan :=
  stats_undefined_few_obs id [((2020 : Int), FVal.fin 1)] 2020 (by decide)

theorem ffill_eq_of_no_nan (xs : Nat → FVal) (t : Nat)
    (h : ∀ s, s ≤ t → (xs s).isNan = false) : ffill xs t = xs t := by
  cases t with
  | zero => rfl
  | succ n =>
      unfold ffill
      rw [h (n + 1) le_rfl]
      simp

/-- Concrete state for the C1 counterexample: a spot series with a missing
value at timestamp 1 ((1, NaN, 2)), constant position 1. -/
def pnlPadState : Backtest :=
  { countries := ["JJJ"]
    fx_lon := fun _ t => if t = 0 then FVal.fin 1 else if t = 1 then FVal.nan else FVal.fin 2
    fx_ny := fun _ _ => FVal.fin 1
    swaps_lon := fun _ _ => FVal.fin 1
    swaps_ny := fun _ _ => FVal.fin 1
    ma_window := 2
    spreads := []
    signals_lon := fun _ _ => FVal.fin 0
    signals_ny := fun _ _ => FVal.fin 0
    positions := fun _ _ => FVal.fin 1 }

/-- Counterexample for C1: pct_change forward-fills missing prices (pandas
default fill_method="pad"), so at timestamp 2 the code's P&L is
(2/1 - 1) * 1 = 1, while the claim's formula
ret = price[2]/price[1] - 1 gives NaN * 1 = NaN. -/
theorem pnl_return_formula_counterexample :
    pnlPadState.computePnl "JJJUSD" 2 = FVal.fin 1
    ∧ (((pnlPadState.fx_lon "JJJUSD" 2).div (pnlPadState.fx_lon "JJJUSD" 1)).sub
        (FVal.fin 1)).mul (pnlPadState.positions "JJJUSD" 1) = FVal.nan := by
  constructor
  · have h2 : ffill (pnlPadState.fx_lon "JJJUSD") 2 = FVal.fin 2 := rfl
    have h1 : ffill (pnlPadState.fx_lon "JJJUSD") 1 = FVal.fin 1 := rfl
    have hret : pctChangePad (pnlPadState.fx_lon "JJJUSD") 2 = FVal.fin 1 := by
      unfold pctChangePad
      norm_num [h1, h2, FVal.div, FVal.sub, FVal.neg, FVal.add]
    simp only [Backtest.computePnl, pnlInst, String.reduceEq, reduceIte, hret]
    norm_num [pnlPadState, FVal.mul]
  · norm_num [pnlPadState, FVal.div, FVal.sub, FVal.neg, FVal.add, FVal.mul]

/-- C1 amended: the per-instrument P&L equals
(price[t]/price[t-1] - 1) * position[t-1] whenever the price series has no
missing value up to t (in general pct_change forward-fills missing prices
first); and unconditionally, P&L at timestamp t depends only on positions
at timestamps strictly before t: replacing the position table by one that
agrees at those timestamps leaves every P&L column at t unchanged. -/
theorem pnl_lag_invariant (b : Backtest) (cur : String) (t : Nat) :
    ((∀ s, s ≤ t → (b.fx_lon cur s).isNan = false) → 1 ≤ t →
      cur ≠ "total" → cur ≠ "total_pct" →
      b.computePnl cur t
        = (((b.fx_lon cur t).div (b.fx_lon cur (t - 1))).sub (FVal.fin 1)).mul
            (b.positions cur (t - 1)))
    ∧ ∀ (p : String → Nat → FVal) (col : String),
        (∀ c s, s + 1 ≤ t → p c s = b.positions c s) →
        Backtest.computePnl { b with positions := p } col t = b.computePnl col t := by
  constructor
  · intro hnn ht h1 h2
    have ht0 : t ≠ 0 := by omega
    unfold Backtest.computePnl
    rw [if_neg h1, if_neg h2]
    unfold pnlInst pctChangePad
    rw [if_neg ht0, if_neg ht0, ffill_eq_of_no_nan _ _ hnn,
      ffill_eq_of_no_nan _ _ (fun s hs => hnn s (le_trans hs (Nat.sub_le t 1)))]
  · intro p col hp
    have hinst : ∀ c, pnlInst { b with positions := p } c t = pnlInst b c t := by
      intro c
      cases t with
      | zero => rfl
      | succ n =>
          have hps := hp c n (by omega)
          simp [pnlInst, hps]
    unfold Backtest.computePnl
    simp only [hinst]
    have hcur : Backtest.currencies { b with positions := p } = b.currencies := rfl
    rw [hcur]

/-- Concrete state for the C1 amended-theorem witness: prices (1, 2, 2, ...)
with no missing value, constant position 3. -/
def pnlLagState : Backtest :=
  { countries := ["KKK"]
    fx_lon := fun _ t => if t = 0 then FVal.fin 1 else FVal.fin 2
    fx_ny := fun _ _ => FVal.fin 1
    swaps_lon := fun _ _ => FVal.fin 1
    swaps_ny := fun _ _ => FVal.fin 1
    ma_window := 2
    spreads := []
    signals_lon := fun _ _ => FVal.fin 0
    signals_ny := fun _ _ => FVal.fin 0
    positions := fun _ _ => FVal.fin 3 }

/-- Witness for the C1 amended theorem: the formula at timestamp 1 of a
never-missing price series, and the mutation of position[1] (and later)
leaving the P&L at timestamp 1 unchanged. -/
theorem pnl_lag_invariant_witness :
    pnlLagState.computePnl "KKKUSD" 1
      = (((pnlLagState.fx_lon "KKKUSD" 1).div (pnlLagState.fx_lon "KKKUSD" 0)).sub
          (FVal.fin 1)).mul (pnlLagState.positions "KKKUSD" 0)
    ∧ Backtest.computePnl
        { pnlLagState with positions := fun _ s => if s = 0 then FVal.fin 3 else FVal.fin 7 }
        "KKKUSD" 1
        = pnlLagState.computePnl "KKKUSD" 1 :=
  ⟨(pnl_lag_invariant pnlLagState "KKKUSD" 1).1
      (fun s _ => by cases s with | zero => rfl | succ n => rfl)
      le_rfl (by decide) (by decide),
   (pnl_lag_invariant pnlLagState "KKKUSD" 1).2
      (fun _ s => if s = 0 then FVal.fin 3 else FVal.fin 7) "KKKUSD"
      (fun c s hs => by
        have hs0 : s = 0 := by omega
        subst hs0
        rfl)⟩

theorem sumSkipNan_all_nan (l : List FVal) (h : ∀ v ∈ l, v = FVal.nan) :
    sumSkipNan l = FVal.fin 0 := by
  unfold sumSkipNan nonNanVals
  rw [List.filter_eq_nil_iff.mpr ?_]
  · rfl
  · intro a ha
    rw [h a ha]
    simp [FVal.isNan]

theorem sumSkipNan_all_fin_zero (l : List FVal) (h : ∀ v ∈ l, v = FVal.fin 0) :
    sumSkipNan l = FVal.fin 0 := by
  obtain ⟨qs, hqs⟩ := exists_fin_list l (fun v hv => ⟨0, h v hv⟩)
  subst hqs
  rw [sumSkipNan_map_fin]
  congr 1
  apply List.sum_eq_zero
  intro q hq
  exact FVal.fin.inj (h (FVal.fin q) (List.mem_map_of_mem FVal.fin hq))

/-- Concrete state for the C3 counterexample: a single instrument; at the
first timestamp every per-instrument P&L cell is NaN (no prior position,
no prior price), yet the total column is 0, not NaN. -/
def zeroTotState : Backtest :=
  { countries := ["LLL"]
    fx_lon := fun _ _ => FVal.fin 1
    fx_ny := fun _ _ => FVal.fin 1
    swaps_lon := fun _ _ => FVal.fin 1
    swaps_ny := fun _ _ => FVal.fin 1
    ma_window := 2
    spreads := []
    signals_lon := fun _ _ => FVal.fin 0
    signals_ny := fun _ _ => FVal.fin 0
    positions := fun _ _ => FVal.fin 1 }

/-- Counterexample for C3: at a timestamp whose per-instrument P&L values
are all NaN, the total (and total_pct) column is 0 — the skipna row sum
silently coerces the all-undefined row to zero instead of propagating the
undefined marker. -/
theorem total_zero_on_all_nan_counterexample :
    pnlInst zeroTotState "LLLUSD" 0 = FVal.nan
    ∧ zeroTotState.computePnl "total" 0 = FVal.fin 0
    ∧ zeroTotState.computePnl "total_pct" 0 = FVal.fin 0 := by
  refine ⟨rfl, rfl, ?_⟩
  unfold Backtest.computePnl
  rw [if_neg (by decide : ¬("total_pct" = "total")), if_pos rfl]
  rw [show sumSkipNan (zeroTotState.currencies.map fun c => pnlInst zeroTotState c 0)
      = FVal.fin 0 from rfl]
  norm_num [FVal.div]

/-- C3 amended: when every composite signal at timestamp t is zero,
position sizing divides by zero and every position at t is NaN; a NaN
position propagates to NaN transaction cost at that timestamp and NaN
per-instrument P&L at the following timestamp; but the total (and
total_pct) column of the P&L table at a timestamp whose per-instrument
values are all NaN is 0, not NaN — the skipna row sum drops undefined
values. -/
theorem zero_signal_propagation (b : Backtest) (fix : Fixes) (tge : ℚ) (t : Nat) :
    ((∀ c ∈ b.currencies, b.sigTable fix c t = FVal.fin 0) → 0 < tge →
      ∀ cur ∈ b.currencies, (b.computePositions fix tge).positions cur t = FVal.nan)
    ∧ (∀ cur, b.positions cur t = FVal.nan → 1 ≤ t →
        b.computeTransactionCosts cur t = FVal.nan)
    ∧ (∀ cur, b.positions cur t = FVal.nan → pnlInst b cur (t + 1) = FVal.nan)
    ∧ ((∀ c ∈ b.currencies, pnlInst b c t = FVal.nan) →
        b.computePnl "total" t = FVal.fin 0 ∧ b.computePnl "total_pct" t = FVal.fin 0) := by
  refine ⟨?_, ?_, ?_, ?_⟩
  · intro hz htge cur hcur
    have hsum : sumSkipNan (b.currencies.map (fun c => (b.sigTable fix c t).abs))
        = FVal.fin 0 := by
      apply sumSkipNan_all_fin_zero
      intro v hv
      obtain ⟨c, hc, rfl⟩ := List.mem_map.mp hv
      rw [hz c hc]
      simp [FVal.abs]
    have hposfun : (b.computePositions fix tge).positions = fun cur2 s =>
        (b.sigTable fix cur2 s).mul ((FVal.fin tge).div
          (sumSkipNan (b.currencies.map (fun c => (b.sigTable fix c s).abs)))) := rfl
    rw [hposfun]
    show (b.sigTable fix cur t).mul ((FVal.fin tge).div
      (sumSkipNan (b.currencies.map (fun c => (b.sigTable fix c t).abs)))) = FVal.nan
    rw [hsum]
    have hdiv : (FVal.fin tge).div (FVal.fin 0) = FVal.pinf := by
      simp [FVal.div, htge]
    rw [hdiv, hz cur hcur]
    simp [FVal.mul]
  · intro cur hnan ht
    unfold Backtest.computeTransactionCosts
    rw [if_neg (by omega : t ≠ 0), hnan]
    simp [FVal.nan_sub, FVal.abs, FVal.nan_mul]
  · intro cur hnan
    simp [pnlInst, hnan, FVal.mul_nan]
  · intro hall
    have h0 : sumSkipNan (b.currencies.map fun c => pnlInst b c t) = FVal.fin 0 := by
      apply sumSkipNan_all_nan
      intro v hv
      obtain ⟨c, hc, rfl⟩ := List.mem_map.mp hv
      exact hall c hc
    constructor
    · unfold Backtest.computePnl
      rw [if_pos rfl]
      exact h0
    · unfold Backtest.computePnl
      rw [if_neg (by decide : ¬("total_pct" = "total")), if_pos rfl, h0]
      norm_num [FVal.div]

/-- Concrete state for the C3 amended-theorem witness: one instrument, all
signals zero, all positions NaN (as a zero-signal sizing run leaves them). -/
def zeroSigC3State : Backtest :=
  { countries := ["UUU"]
    fx_lon := fun _ _ => FVal.fin 1
    fx_ny := fun _ _ => FVal.fin 1
    swaps_lon := fun _ _ => FVal.fin 1
    swaps_ny := fun _ _ => FVal.fin 1
    ma_window := 2
    spreads := []
    signals_lon := fun _ _ => FVal.fin 0
    signals_ny := fun _ _ => FVal.fin 0
    positions := fun _ _ => FVal.nan }

/-- Witness for the C3 amended theorem at a concrete state and timestamp. -/
theorem zero_signal_propagation_witness :
    ((zeroSigC3State.computePositions Fixes.LON 1000000).positions "UUUUSD" 1 = FVal.nan)
    ∧ zeroSigC3State.computeTransactionCosts "UUUUSD" 1 = FVal.nan
    ∧ pnlInst zeroSigC3State "UUUUSD" 2 = FVal.nan
    ∧ (zeroSigC3State.computePnl "total" 1 = FVal.fin 0
        ∧ zeroSigC3State.computePnl "total_pct" 1 = FVal.fin 0) :=
  have h := zero_signal_propagation zeroSigC3State Fixes.LON 1000000 1
  ⟨h.1 (fun _ _ => rfl) (by norm_num) "UUUUSD" (by decide),
   h.2.1 "UUUUSD" rfl (by norm_num),
   h.2.2.1 "UUUUSD" rfl,
   h.2.2.2 (fun c _ => by simp [pnlInst, zeroSigC3State, FVal.mul_nan])⟩

theorem sumSkipNan_eq_sumF_of_no_nan (l : List FVal) (h : ∀ v ∈ l, v.isNan = false) :
    sumSkipNan l = sumF l := by
  unfold sumSkipNan sumF nonNanVals
  rw [List.filter_eq_self.mpr ?_]
  intro a ha
  rw [h a ha]
  rfl

/-- Concrete state for the C4 counterexample: one instrument, signal 1
everywhere, price stepping from 1 to 2. -/
def c4State : Backtest :=
  { countries := ["MMM"]
    fx_lon := fun _ t => if t = 0 then FVal.fin 1 else FVal.fin 2
    fx_ny := fun _ _ => FVal.fin 1
    swaps_lon := fun _ _ => FVal.fin 1
    swaps_ny := fun _ _ => FVal.fin 1
    ma_window := 2
    spreads := []
    signals_lon := fun _ _ => FVal.fin 1
    signals_ny := fun _ _ => FVal.fin 0
    positions := fun _ _ => FVal.fin 0 }

/-- The C4 counterexample run: positions computed with a target gross
exposure of 2,000,000, twice the default. -/
def c4Run : Backtest := c4State.computePositions Fixes.LON 2000000

/-- Counterexample for C4: after sizing positions with target gross
exposure 2,000,000, total_pct at timestamp 1 is total / 1,000,000 (the
literal hard-coded in compute_pnl), not total / target_gross_exposure. -/
theorem total_pct_counterexample :
    c4Run.computePnl "total_pct" 1 ≠ (c4Run.computePnl "total" 1).div (FVal.fin 2000000)
    ∧ c4Run.computePnl "total_pct" 1 = (c4Run.computePnl "total" 1).div (FVal.fin 1000000) := by
  have h1 : c4Run.positions "MMMUSD" 0 = FVal.fin 2000000 := by
    show (c4State.sigTable Fixes.LON "MMMUSD" 0).mul ((FVal.fin 2000000).div
      (sumSkipNan (c4State.currencies.map fun c => (c4State.sigTable Fixes.LON c 0).abs)))
      = FVal.fin 2000000
    norm_num [c4State, Backtest.sigTable, Backtest.currencies, sumSkipNan, nonNanVals,
      FVal.abs, FVal.isNan, FVal.add, FVal.mul, FVal.div]
  have hret : pctChangePad (c4State.fx_lon "MMMUSD") 1 = FVal.fin 1 := by
    unfold pctChangePad
    norm_num [show ffill (c4State.fx_lon "MMMUSD") 1 = FVal.fin 2 from rfl,
      show ffill (c4State.fx_lon "MMMUSD") 0 = FVal.fin 1 from rfl,
      FVal.div, FVal.sub, FVal.neg, FVal.add]
  have h2 : pnlInst c4Run "MMMUSD" 1 = FVal.fin 2000000 := by
    unfold pnlInst
    have hfx : c4Run.fx_lon = c4State.fx_lon := rfl
    rw [hfx, hret]
    norm_num [h1, FVal.mul]
  have htot : c4Run.computePnl "total" 1 = FVal.fin 2000000 := by
    unfold Backtest.computePnl
    rw [if_pos rfl]
    rw [show c4Run.currencies.map (fun c => pnlInst c4Run c 1) = [pnlInst c4Run "MMMUSD" 1]
      from rfl]
    rw [h2]
    norm_num [sumSkipNan, nonNanVals, FVal.isNan, FVal.add]
  have hpct : c4Run.computePnl "total_pct" 1 = FVal.fin 2 := by
    unfold Backtest.computePnl
    rw [if_neg (by decide : ¬("total_pct" = "total")), if_pos rfl]
    rw [show c4Run.currencies.map (fun c => pnlInst c4Run c 1) = [pnlInst c4Run "MMMUSD" 1]
      from rfl]
    rw [h2]
    norm_num [sumSkipNan, nonNanVals, FVal.isNan, FVal.add, FVal.div]
  constructor
  · rw [hpct, htot]
    norm_num [FVal.div]
  · rw [hpct, htot]
    norm_num [FVal.div]

/-- C4 amended: the total column is the skipna sum of the per-instrument
P&L cells (equal to the plain cross-instrument sum whenever no cell is
NaN), and total_pct is total divided by the literal 1,000,000, whatever
target gross exposure was supplied to compute_positions. -/
theorem pnl_total_columns (b : Backtest) (t : Nat) :
    b.computePnl "total" t = sumSkipNan (b.currencies.map (fun c => pnlInst b c t))
    ∧ (∀ fix tge, (b.computePositions fix tge).computePnl "total_pct" t
        = ((b.computePositions fix tge).computePnl "total" t).div (FVal.fin 1000000))
    ∧ ((∀ c ∈ b.currencies, (pnlInst b c t).isNan = false) →
        b.computePnl "total" t = sumF (b.currencies.map (fun c => pnlInst b c t))) := by
  refine ⟨?_, ?_, ?_⟩
  · unfold Backtest.computePnl
    rw [if_pos rfl]
  · intro fix tge
    rfl
  · intro h
    unfold Backtest.computePnl
    rw [if_pos rfl]
    apply sumSkipNan_eq_sumF_of_no_nan
    intro v hv
    obtain ⟨c, hc, rfl⟩ := List.mem_map.mp hv
    exact h c hc

/-- Concrete state for the C4 amended-theorem witness: one instrument,
constant price 1 and position 1 (all P&L cells defined at t = 1). -/
def c4WState : Backtest :=
  { countries := ["VVV"]
    fx_lon := fun _ _ => FVal.fin 1
    fx_ny := fun _ _ => FVal.fin 1
    swaps_lon := fun _ _ => FVal.fin 1
    swaps_ny := fun _ _ => FVal.fin 1
    ma_window := 2
    spreads := []
    signals_lon := fun _ _ => FVal.fin 1
    signals_ny := fun _ _ => FVal.fin 0
    positions := fun _ _ => FVal.fin 1 }

/-- Witness for the C4 amended theorem at a concrete state. -/
theorem pnl_total_columns_witness :
    c4WState.computePnl "total" 1
      = sumSkipNan (c4WState.currencies.map (fun c => pnlInst c4WState c 1))
    ∧ (c4WState.computePositions Fixes.LON 5).computePnl "total_pct" 1
        = ((c4WState.computePositions Fixes.LON 5).computePnl "total" 1).div
          (FVal.fin 1000000)
    ∧ c4WState.computePnl "total" 1
        = sumF (c4WState.currencies.map (fun c => pnlInst c4WState c 1)) := by
  have h := pnl_total_columns c4WState 1
  have hinst : pnlInst c4WState "VVVUSD" 1 = FVal.fin 0 := by
    unfold pnlInst pctChangePad
    norm_num [show ffill (c4WState.fx_lon "VVVUSD") 1 = FVal.fin 1 from rfl,
      show ffill (c4WState.fx_lon "VVVUSD") 0 = FVal.fin 1 from rfl,
      show c4WState.positions "VVVUSD" 0 = FVal.fin 1 from rfl,
      FVal.div, FVal.sub, FVal.neg, FVal.add, FVal.mul]
  refine ⟨h.1, h.2.1 Fixes.LON 5, h.2.2 ?_⟩
  intro c hc
  have hc2 : c = "VVVUSD" := by
    simpa [c4WState, Backtest.currencies] using hc
  rw [hc2, hinst]
  rfl

theorem FVal.ltB_nan_right (v : FVal) : v.ltB FVal.nan = false := by
  cases v <;> rfl

/-- Concrete swaps for the C6 counterexample: one pair whose diff column is
(1, -1), so the rolling average at timestamp 1 is exactly zero while the
diff there is nonzero. -/
def c6swaps : String → Nat → FVal := fun cur t =>
  if cur = "NNNUSD" then (if t = 0 then FVal.fin 1 else FVal.fin (-1)) else FVal.fin 0

/-- Counterexample for C6: at a timestamp where the rolling average is zero
but the diff is nonzero, the raw subsignal is negative infinity — a
defined (non-NaN) value — so "undefined wherever avg is undefined or zero"
fails in the zero-average case. -/
theorem subsignal_inf_counterexample :
    rollingMean 2 (fun s => (c6swaps ("NNN" ++ "USD") s).sub (c6swaps ("PPP" ++ "USD") s)) 1
      = FVal.fin 0
    ∧ subCol c6swaps 2 "NNN" "PPP" 1 = FVal.ninf
    ∧ subCol c6swaps 2 "NNN" "PPP" 1 ≠ FVal.nan := by
  have h2 : subCol c6swaps 2 "NNN" "PPP" 1 = FVal.ninf := by
    simp only [subCol, c6swaps, String.reduceAppend, String.reduceEq, reduceIte]
    norm_num [rollingMean, List.range_succ, List.range_zero, FVal.sub, FVal.neg,
      FVal.add, FVal.div, FVal.abs]
  refine ⟨?_, h2, ?_⟩
  · simp only [c6swaps, String.reduceAppend, String.reduceEq, reduceIte]
    norm_num [rollingMean, List.range_succ, List.range_zero, FVal.sub, FVal.neg,
      FVal.add, FVal.div]
  · rw [h2]
    simp

/-- C6 amended: the raw subsignal is NaN where the rolling average is NaN,
and NaN where the average is zero and the diff is zero too (0/0); where
the average is zero and the diff is a nonzero rational the subsignal is a
signed infinity (diff/0), a defined value; and every NaN subsignal cell
discretizes to 0 (the third mask sends NaN to 0). -/
theorem subsignal_undefined_cases (swaps : String → Nat → FVal) (w : Nat) (c1 c2 : String)
    (t : Nat) (q : ℚ) :
    (rollingMean w (fun s => (swaps (c1 ++ "USD") s).sub (swaps (c2 ++ "USD") s)) t
        = FVal.nan → subCol swaps w c1 c2 t = FVal.nan)
    ∧ (rollingMean w (fun s => (swaps (c1 ++ "USD") s).sub (swaps (c2 ++ "USD") s)) t
        = FVal.fin 0 →
        ((swaps (c1 ++ "USD") t).sub (swaps (c2 ++ "USD") t) = FVal.fin 0 →
          subCol swaps w c1 c2 t = FVal.nan)
        ∧ ((swaps (c1 ++ "USD") t).sub (swaps (c2 ++ "USD") t) = FVal.fin q → 0 < q →
          subCol swaps w c1 c2 t = FVal.pinf)
        ∧ ((swaps (c1 ++ "USD") t).sub (swaps (c2 ++ "USD") t) = FVal.fin q → q < 0 →
          subCol swaps w c1 c2 t = FVal.ninf))
    ∧ (∀ thr, discretize FVal.nan thr = FVal.fin 0) := by
  refine ⟨?_, ?_, ?_⟩
  · intro h
    simp only [subCol]
    rw [h]
    simp [FVal.sub_nan, FVal.abs, FVal.nan_div]
  · intro havg
    refine ⟨?_, ?_, ?_⟩
    · intro hd
      simp only [subCol]
      rw [havg, hd]
      norm_num [FVal.sub, FVal.neg, FVal.add, FVal.abs, FVal.div]
    · intro hd hq
      simp only [subCol]
      rw [havg, hd]
      norm_num [FVal.sub, FVal.neg, FVal.add, FVal.abs, FVal.div, hq, hq.ne']
    · intro hd hq
      simp only [subCol]
      rw [havg, hd]
      norm_num [FVal.sub, FVal.neg, FVal.add, FVal.abs, FVal.div, hq, hq.ne,
        hq.not_lt]
  · intro thr
    simp [discretize, FVal.abs, FVal.ltB_nan_right]

/-- Constant swaps for the C6 witness (diff identically zero). -/
def c6wSwapsA : String → Nat → FVal := fun _ _ => FVal.fin 1

/-- Swaps for the C6 witness whose pair diff steps (-1, 1): zero average,
positive diff at timestamp 1. -/
def c6wSwapsB : String → Nat → FVal := fun cur t =>
  if cur = "WWWUSD" then (if t = 0 then FVal.fin (-1) else FVal.fin 1) else FVal.fin 0

/-- Swaps for the C6 witness whose pair diff steps (1, -1): zero average,
negative diff at timestamp 1. -/
def c6wSwapsC : String → Nat → FVal := fun cur t =>
  if cur = "WWWUSD" then (if t = 0 then FVal.fin 1 else FVal.fin (-1)) else FVal.fin 0

/-- Witness for the C6 amended theorem: NaN average (warm-up), the 0/0
case, both signed-infinity cases, and the NaN discretization. -/
theorem subsignal_undefined_cases_witness :
    subCol c6wSwapsA 2 "QQQ" "RRR" 0 = FVal.nan
    ∧ subCol c6wSwapsA 2 "QQQ" "RRR" 1 = FVal.nan
    ∧ subCol c6wSwapsB 2 "WWW" "XXX" 1 = FVal.pinf
    ∧ subCol c6wSwapsC 2 "WWW" "XXX" 1 = FVal.ninf
    ∧ discretize FVal.nan (FVal.fin 5) = FVal.fin 0 := by
  have hA0 : rollingMean 2
      (fun s => (c6wSwapsA ("QQQ" ++ "USD") s).sub (c6wSwapsA ("RRR" ++ "USD") s)) 0
      = FVal.nan := rfl
  have hA : rollingMean 2
      (fun s => (c6wSwapsA ("QQQ" ++ "USD") s).sub (c6wSwapsA ("RRR" ++ "USD") s)) 1
      = FVal.fin 0 := by
    norm_num [c6wSwapsA, rollingMean, List.range_succ, List.range_zero, FVal.sub,
      FVal.neg, FVal.add, FVal.div]
  have hAd : (c6wSwapsA ("QQQ" ++ "USD") 1).sub (c6wSwapsA ("RRR" ++ "USD") 1)
      = FVal.fin 0 := by
    norm_num [c6wSwapsA, FVal.sub, FVal.neg, FVal.add]
  have hB : rollingMean 2
      (fun s => (c6wSwapsB ("WWW" ++ "USD") s).sub (c6wSwapsB ("XXX" ++ "USD") s)) 1
      = FVal.fin 0 := by
    simp only [c6wSwapsB, String.reduceAppend, String.reduceEq, reduceIte]
    norm_num [rollingMean, List.range_succ, List.range_zero, FVal.sub, FVal.neg,
      FVal.add, FVal.div]
  have hBd : (c6wSwapsB ("WWW" ++ "USD") 1).sub (c6wSwapsB ("XXX" ++ "USD") 1)
      = FVal.fin 1 := by
    simp only [c6wSwapsB, String.reduceAppend, String.reduceEq, reduceIte]
    norm_num [FVal.sub, FVal.neg, FVal.add]
  have hC : rollingMean 2
      (fun s => (c6wSwapsC ("WWW" ++ "USD") s).sub (c6wSwapsC ("XXX" ++ "USD") s)) 1
      = FVal.fin 0 := by
    simp only [c6wSwapsC, String.reduceAppend, String.reduceEq, reduceIte]
    norm_num [rollingMean, List.range_succ, List.range_zero, FVal.sub, FVal.neg,
      FVal.add, FVal.div]
  have hCd : (c6wSwapsC ("WWW" ++ "USD") 1).sub (c6wSwapsC ("XXX" ++ "USD") 1)
      = FVal.fin (-1) := by
    simp only [c6wSwapsC, String.reduceAppend, String.reduceEq, reduceIte]
    norm_num [FVal.sub, FVal.neg, FVal.add]
  exact ⟨(subsignal_undefined_cases c6wSwapsA 2 "QQQ" "RRR" 0 0).1 hA0,
    ((subsignal_undefined_cases c6wSwapsA 2 "QQQ" "RRR" 1 0).2.1 hA).1 hAd,
    ((subsignal_undefined_cases c6wSwapsB 2 "WWW" "XXX" 1 1).2.1 hB).2.1 hBd (by norm_num),
    ((subsignal_undefined_cases c6wSwapsC 2 "WWW" "XXX" 1 (-1)).2.1 hC).2.2 hCd (by norm_num),
    (subsignal_undefined_cases c6wSwapsA 2 "QQQ" "RRR" 0 0).2.2 (FVal.fin 5)⟩

/-- Concrete state for the C8 counterexample, with NY spot fixes all 1. -/
def c8State : Backtest :=
  { countries := ["SSS"]
    fx_lon := fun _ t => if t = 0 then FVal.fin 1 else FVal.fin 2
    fx_ny := fun _ _ => FVal.fin 1
    swaps_lon := fun _ _ => FVal.fin 1
    swaps_ny := fun _ _ => FVal.fin 1
    ma_window := 2
    spreads := []
    signals_lon := fun _ _ => FVal.fin 1
    signals_ny := fun _ _ => FVal.fin 1
    positions := fun _ _ => FVal.fin 1 }

/-- Counterexample for C8: compute_pnl takes no session parameter and reads
only the LON spot fixes — replacing the NY spot table by a different one
leaves the whole P&L table unchanged, so the P&L computation cannot be
performed against the NY session's spot fixes. -/
theorem pnl_ignores_ny_counterexample :
    c8State.fx_ny "SSSUSD" 0 ≠ (fun (_ : String) (_ : Nat) => FVal.fin 2) "SSSUSD" 0
    ∧ Backtest.computePnl { c8State with fx_ny := fun _ _ => FVal.fin 2 }
        = c8State.computePnl := by
  constructor
  · simp [c8State]
  · rfl

/-- C8 amended: run() executes exactly compute_signals(LON),
compute_positions(LON) with the default 1,000,000 exposure, and
compute_pnl, in that order; compute_signals and compute_positions take the
session as an explicit parameter, but compute_pnl takes none and depends
only on the LON spot fixes (changing the NY table never changes it). -/
theorem run_pipeline (b : Backtest) :
    b.run = ((b.computeSignals Fixes.LON).computePositions Fixes.LON 1000000,
      ((b.computeSignals Fixes.LON).computePositions Fixes.LON 1000000).computePnl)
    ∧ ∀ f : String → Nat → FVal,
        Backtest.computePnl { b with fx_ny := f } = b.computePnl := by
  exact ⟨rfl, fun f => rfl⟩
